import Mathlib

set_option linter.unusedVariables false

/-!
Shallow embedding of the Koala.AI workflow-orchestration core
(`src/koala/flow.py`, `plugins/koala/guards.py`, `src/koala/observability.py`)
together with theorems settling the frozen claims about it.

Python values are modelled by the inductive `Value` (floats as rationals),
Python dicts by insertion-ordered association lists with replace-on-reassign
semantics (`dget` / `dinsert` / `derase`), exceptions by `Except`, and the
thread-pool scheduler of `LocalExecutor.run_dagflow` by a deterministic
timed event loop: every in-flight future carries its dispatch and completion
time (rational model time), and the dispatch loop always wakes at the
earliest completion, which is one legal schedule of
`concurrent.futures.wait(..., FIRST_COMPLETED)`.
-/

namespace Koala

/-- Python floats (durations, backoffs, timeouts, model wall-clock times)
modelled as fractions with an integer numerator and a positive natural
denominator.  Operations are implemented structurally (no gcd
normalisation) so that they evaluate inside the kernel; two structurally
different fractions may denote the same number, which only influences the
model's tie-breaking among simultaneous completions — any such choice is a
legal schedule of `concurrent.futures.wait`. -/
structure PyFloat where
  num : Int
  den : Nat
  deriving DecidableEq

namespace PyFloat

/-- Embed an integer. -/
def ofInt (n : Int) : PyFloat := ⟨n, 1⟩

/-- Addition of fractions. -/
def add (a b : PyFloat) : PyFloat := ⟨a.num * b.den + b.num * a.den, a.den * b.den⟩

/-- Subtraction of fractions. -/
def sub (a b : PyFloat) : PyFloat := ⟨a.num * b.den - b.num * a.den, a.den * b.den⟩

/-- Multiplication of fractions. -/
def mul (a b : PyFloat) : PyFloat := ⟨a.num * b.num, a.den * b.den⟩

/-- Value comparison by cross multiplication (denominators positive). -/
def lt (a b : PyFloat) : Bool := a.num * b.den < b.num * a.den

/-- Non-strict value comparison. -/
def le (a b : PyFloat) : Bool := a.num * b.den ≤ b.num * a.den

/-- The smaller of two fractions. -/
def min (a b : PyFloat) : PyFloat := if a.le b then a else b

end PyFloat

instance (n : Nat) : OfNat PyFloat n := ⟨⟨Int.ofNat n, 1⟩⟩

/-- Sum of a list of fractions. -/
def fsum : List PyFloat → PyFloat
  | [] => ⟨0, 1⟩
  | q :: rest => q.add (fsum rest)

/-- Python runtime values as they occur in step arguments and results.
Floats are modelled as `PyFloat` fractions; `vNone` is Python `None`. -/
inductive Value where
  | vNone : Value
  | vInt : Int → Value
  | vFloat : PyFloat → Value
  | vStr : String → Value
  | vList : List Value → Value
  | vDict : List (String × Value) → Value

/-- Python `dict.get(k)`: first binding of `k`, or `none`. -/
def dget (k : String) : List (String × α) → Option α
  | [] => none
  | (k2, v) :: rest => if k2 = k then some v else dget k rest

/-- Python `d[k] = v`: replace the first binding of `k` in place, else append.
On a dict with distinct keys this is exactly Python assignment (re-assigning
keeps the key's original insertion position). -/
def dinsert (k : String) (v : α) : List (String × α) → List (String × α)
  | [] => [(k, v)]
  | (k2, w) :: rest => if k2 = k then (k, v) :: rest else (k2, w) :: dinsert k v rest

/-- Python `d.pop(k)` (the removal part): drop the first binding of `k`. -/
def derase (k : String) : List (String × α) → List (String × α)
  | [] => []
  | (k2, v) :: rest => if k2 = k then rest else (k2, v) :: derase k rest

/-- Key list of a dict, in insertion order. -/
def dkeys (l : List (String × α)) : List String := l.map Prod.fst

/-- Argument maps `step.args` / `resolved_args`: string-keyed dicts of values. -/
abbrev Args := List (String × Value)

/-- Errors of the flow module.  The Python source raises a single class
`FlowError(message)`; each constructor below corresponds to one of the
message formats built in `flow.py`, keeping the data that the message
interpolates. -/
inductive FlowErr where
  | duplicateStep (id : String)
  | unknownStep (id : String)
  | duplicateState (id : String)
  | unknownState (id : String)
  | noStartState
  | actionNotFound (action : String)
  | keyError (key : String)
  | guardPre (stepId : String) (cause : String)
  | guardPost (stepId : String) (cause : String)
  | stepTimeout (stepId : String) (timeout : PyFloat)
  | stepFailed (stepId : String) (cause : String)
  | cycleOrUnreach
  | uncaught (cause : String)
  | poolBroken (stepId : String) (cause : String)
  | stepFailedInProcess (stepId : String) (cause : String)
  | notAllExecutedProcess
  | outOfFuel
  deriving DecidableEq

/-- The `Step` dataclass of `flow.py`. -/
structure Step where
  id : String
  action : String
  args : Args

/-- The `DAGFlow` dataclass of `flow.py`: steps in insertion order plus a list of
directed edges `(from_id, to_id)`. -/
structure DAGFlow where
  id : String
  steps : List Step
  edges : List (String × String)
  version : String

/-- Method `DAGFlow.add_step`: reject a duplicate step id, else append. -/
def DAGFlow.add_step (flow : DAGFlow) (step : Step) : Except FlowErr DAGFlow :=
  if flow.steps.any (fun s => s.id = step.id) then .error (.duplicateStep step.id)
  else .ok { flow with steps := flow.steps ++ [step] }

/-- Method `DAGFlow.add_edge`: both endpoints must name existing steps. -/
def DAGFlow.add_edge (flow : DAGFlow) (from_id to_id : String) : Except FlowErr DAGFlow :=
  if ¬ flow.steps.any (fun s => s.id = from_id) then .error (.unknownStep from_id)
  else if ¬ flow.steps.any (fun s => s.id = to_id) then .error (.unknownStep to_id)
  else .ok { flow with edges := flow.edges ++ [(from_id, to_id)] }

/-- Method `Step.to_dict`. -/
def Step.to_dict (s : Step) : Value :=
  .vDict [("id", .vStr s.id), ("action", .vStr s.action), ("args", .vDict s.args)]

/-- Method `Step.from_dict`: reads `d["id"]`, `d["action"]`, `d.get("args", {})`.
The dataclass annotates `id`/`action` as `str` and `args` as a dict, so the
typed decode fails on other shapes. -/
def Step.from_dict (v : Value) : Option Step :=
  match v with
  | .vDict d =>
    match dget "id" d, dget "action" d with
    | some (.vStr i), some (.vStr a) =>
      match dget "args" d with
      | some (.vDict args) => some ⟨i, a, args⟩
      | none => some ⟨i, a, []⟩
      | some _ => none
    | _, _ => none
  | _ => none

/-- Method `DAGFlow.to_dict`: `{"id", "version", "steps": [...], "edges": [[f, t], ...]}`. -/
def DAGFlow.to_dict (f : DAGFlow) : Value :=
  .vDict [("id", .vStr f.id), ("version", .vStr f.version),
          ("steps", .vList (f.steps.map Step.to_dict)),
          ("edges", .vList (f.edges.map (fun e => .vList [.vStr e.1, .vStr e.2])))]

/-- Decode a list of serialized steps (the `for s in d.get("steps", [])` loop). -/
def decodeSteps : List Value → Option (List Step)
  | [] => some []
  | v :: rest =>
    match Step.from_dict v, decodeSteps rest with
    | some s, some l => some (s :: l)
    | _, _ => none

/-- Decode one serialized edge: the `for f, t in d.get("edges", [])` unpacking
requires a two-element sequence of step ids. -/
def decodeEdge : Value → Option (String × String)
  | .vList [.vStr f, .vStr t] => some (f, t)
  | _ => none

/-- Decode the edge list. -/
def decodeEdges : List Value → Option (List (String × String))
  | [] => some []
  | v :: rest =>
    match decodeEdge v, decodeEdges rest with
    | some e, some l => some (e :: l)
    | _, _ => none

/-- Method `DAGFlow.from_dict`: reads `d["id"]`, `d.get("version", "0.1.0")` and
appends the decoded steps and edges directly to the flow's lists —
without any of the `add_step` / `add_edge` validation. -/
def DAGFlow.from_dict (v : Value) : Option DAGFlow :=
  match v with
  | .vDict d =>
    match dget "id" d with
    | some (.vStr i) =>
      let ver : Option String :=
        match dget "version" d with
        | some (.vStr s) => some s
        | none => some "0.1.0"
        | some _ => none
      let steps : Option (List Step) :=
        match dget "steps" d with
        | some (.vList l) => decodeSteps l
        | none => some []
        | some _ => none
      let edges : Option (List (String × String)) :=
        match dget "edges" d with
        | some (.vList l) => decodeEdges l
        | none => some []
        | some _ => none
      match ver, steps, edges with
      | some ver, some steps, some edges => some ⟨i, steps, edges, ver⟩
      | _, _, _ => none
    | _ => none
  | _ => none

/-! Guards registry (`plugins/koala/guards.py`).  A guard hook either raises
`GuardError` (modelled as `.error msg`) or returns a Python value; `run_pre`
additionally rejects any pre-hook return that is not a dict. -/

/-- One guard instance: `pre_step(step_id, action, args)` and
`post_step(step_id, action, args, result)`. -/
structure Guard where
  pre_step : String → String → Args → Except String Value
  post_step : String → String → Args → Value → Except String Value

/-- Method `GuardsRegistry.run_pre`: fold the argument map through each guard's
pre-hook in registration order, short-circuiting on the first `GuardError`,
and treating a non-dict return as a violation. -/
def run_pre (gs : List Guard) (step_id action : String) (args : Args) :
    Except String Args :=
  match gs with
  | [] => .ok args
  | g :: rest =>
    match g.pre_step step_id action args with
    | .error e => .error e
    | .ok (.vDict cur) => run_pre rest step_id action cur
    | .ok _ => .error "pre_step must return a dict of args"

/-- Method `GuardsRegistry.run_post`: fold the result through each guard's post-hook
in registration order, short-circuiting on the first `GuardError`. -/
def run_post (gs : List Guard) (step_id action : String) (args : Args)
    (result : Value) : Except String Value :=
  match gs with
  | [] => .ok result
  | g :: rest =>
    match g.post_step step_id action args result with
    | .error e => .error e
    | .ok cur => run_post rest step_id action args cur

/-! Retry policy (`observability.py`) and the retry loop
(`LocalExecutor.run_dagflow._run_with_retries`). -/

/-- Class `RetryPolicy`: the constructor enforces `max_attempts >= 1`, so the field
is stored as a `Nat` here and `from_dict` performs the `< 1` check. -/
structure RetryPolicy where
  max_attempts : Nat
  backoff : PyFloat
  multiplier : PyFloat

/-- Python `int(v)` as used on retry-policy fields; only actual ints are
modelled (other conversions raise or are unexercised). -/
def pyInt : Value → Option Int
  | .vInt n => some n
  | _ => none

/-- Python `float(v)` on numeric values; `float` of non-numeric strings
raises, and numeric-string parsing is not exercised by the flow module. -/
def pyFloat : Value → Option PyFloat
  | .vInt n => some (.ofInt n)
  | .vFloat q => some q
  | _ => none

/-- Method `RetryPolicy.from_dict`: `None`/falsy input gives no policy; a dict is
read with defaults `max_attempts=3, backoff=0.1, multiplier=2.0`; a
conversion failure, a non-dict input, or `max_attempts < 1` raises in Python
and the caller (`submit_step`) turns any such exception into "no policy",
so all those cases are folded into `none` here. -/
def RetryPolicy.from_dict : Value → Option RetryPolicy
  | .vDict d =>
    if d.isEmpty then none
    else
      let ma : Option Int :=
        match dget "max_attempts" d with
        | none => some 3
        | some v => pyInt v
      let bo : Option PyFloat :=
        match dget "backoff" d with
        | none => some ⟨1, 10⟩
        | some v => pyFloat v
      let mu : Option PyFloat :=
        match dget "multiplier" d with
        | none => some ⟨2, 1⟩
        | some v => pyFloat v
      match ma, bo, mu with
      | some ma, some bo, some mu =>
        if ma < 1 then none else some ⟨ma.toNat, bo, mu⟩
      | _, _, _ => none
  | _ => none

/-- Default per-executor policy: `RetryPolicy(max_attempts=1, backoff=0.0,
multiplier=1.0)` — no retry. -/
def default_retry : RetryPolicy := ⟨1, ⟨0, 1⟩, ⟨1, 1⟩⟩

/-- Outcome of the retry loop: the propagated result, the number of times the
action was invoked, and the backoff sleeps performed between attempts, in
order. -/
structure RetryOut where
  result : Except String Value
  calls : Nat
  sleeps : List PyFloat

/-- Body of `_run_with_retries`: `outcome i` is what the `i`-th invocation of
the action does (0-indexed), `done` counts invocations already made,
`remaining = max_attempts - done`.  On failure with attempts remaining the
loop sleeps the current backoff and multiplies it for the next attempt; when
attempts are exhausted the last failure is re-raised.  A `max_attempts` of 0
never enters the `while` loop and the Python function returns `None`. -/
def retry_go (outcome : Nat → Except String Value) (multiplier : PyFloat) :
    Nat → Nat → PyFloat → RetryOut
  | _, 0, _ => ⟨.ok .vNone, 0, []⟩
  | done, remaining + 1, backoff =>
    match outcome done with
    | .ok v => ⟨.ok v, 1, []⟩
    | .error e =>
      if remaining = 0 then ⟨.error e, 1, []⟩
      else
        let r := retry_go outcome multiplier (done + 1) remaining (backoff.mul multiplier)
        ⟨r.result, r.calls + 1, backoff :: r.sleeps⟩

/-- The `_run_with_retries` loop for a given retry policy. -/
def run_with_retries (outcome : Nat → Except String Value) (rp : RetryPolicy) :
    RetryOut :=
  retry_go outcome rp.multiplier 0 rp.max_attempts rp.backoff

/-- The sleep schedule of the retry loop: sleep the current backoff, then
multiply it by the multiplier for the next attempt. -/
def backoffSeq (b m : PyFloat) : Nat → List PyFloat
  | 0 => []
  | n + 1 => b :: backoffSeq (b.mul m) m n

/-! Argument resolution (`$result.<step>` references). -/

/-- The `v.startswith("$result.")` test plus `v.split("$result.", 1)[1]`:
returns the reference target when the string carries the prefix. -/
def stripResultRef (s : String) : Option String :=
  match s.data with
  | '$' :: 'r' :: 'e' :: 's' :: 'u' :: 'l' :: 't' :: '.' :: rest => some (String.mk rest)
  | _ => none

/-- Resolve one argument value against the results-so-far map: a
`$result.<id>` reference is looked up with `results.get(ref_id)`, which
yields Python `None` when the step has no recorded result yet. -/
def resolveValue (results : List (String × Value)) (v : Value) : Value :=
  match v with
  | .vStr s =>
    match stripResultRef s with
    | some ref_id => (dget ref_id results).getD .vNone
    | none => .vStr s
  | v => v

/-- Resolve a whole argument map (the `resolved_args` comprehension). -/
def resolveArgs (results : List (String × Value)) (args : Args) : Args :=
  args.map (fun p => (p.1, resolveValue results p.2))

/-! Reserved-key extraction in `submit_step`. -/

/-- Conversion applied to a popped `__timeout__` value: ints and floats
convert; any other shape (including an unparsable string) leaves the timeout
unset. -/
def timeoutOfValue : Value → Option PyFloat
  | .vInt n => some (.ofInt n)
  | .vFloat q => some q
  | _ => none

/-- Pop the reserved `__timeout__` key from the resolved arguments.  The key
is removed whether or not its value converts to a float. -/
def extractTimeout (args : Args) : Option PyFloat × Args :=
  match dget "__timeout__" args with
  | none => (none, args)
  | some raw => (timeoutOfValue raw, derase "__timeout__" args)

/-- Pop the reserved `__retry__` key from the resolved arguments.  The key is
removed whether or not it parses into a `RetryPolicy`. -/
def extractRetry (args : Args) : Option RetryPolicy × Args :=
  match dget "__retry__" args with
  | none => (none, args)
  | some raw => (RetryPolicy.from_dict raw, derase "__retry__" args)

/-- Accumulated model time of `n` action invocations of duration `q` each
(written as an iterated sum so that it evaluates definitionally). -/
def natTimes (q : PyFloat) : Nat → PyFloat
  | 0 => ⟨0, 1⟩
  | n + 1 => q.add (natTimes q n)

/-! The local executor (`LocalExecutor.run_dagflow`), as a deterministic
timed event loop. -/

/-- A registry entry: one invocation of the action takes `dur` units of model
wall-clock time; `run i args` is the behaviour of its `i`-th invocation on a
given argument map (`.error` models a raised exception). -/
structure TimedAction where
  dur : PyFloat
  run : Nat → Args → Except String Value

/-- The dependency graph built at the top of `run_dagflow`: `nodes` is the
`{s.id: s}` dict (last duplicate wins), `incoming` the in-degree counters and
`outgoing` the adjacency lists. -/
structure Graph where
  nodes : List (String × Step)
  incoming : List (String × Int)
  outgoing : List (String × List String)

/-- The `{s.id: s for s in flow.steps}` comprehension. -/
def buildNodes : List Step → List (String × Step) → List (String × Step)
  | [], acc => acc
  | s :: rest, acc => buildNodes rest (dinsert s.id s acc)

/-- One iteration of the edge loop: `outgoing[f].append(t)` then
`incoming[t] += 1`; an edge endpoint absent from `nodes` raises `KeyError`. -/
def applyEdge (g : Graph) (e : String × String) : Except FlowErr Graph :=
  match dget e.1 g.outgoing with
  | none => .error (.keyError e.1)
  | some outs =>
    match dget e.2 g.incoming with
    | none => .error (.keyError e.2)
    | some deg =>
      .ok { g with outgoing := dinsert e.1 (outs ++ [e.2]) g.outgoing,
                   incoming := dinsert e.2 (deg + 1) g.incoming }

/-- The `for f, t in flow.edges` loop. -/
def applyEdges : List (String × String) → Graph → Except FlowErr Graph
  | [], g => .ok g
  | e :: rest, g =>
    match applyEdge g e with
    | .error err => .error err
    | .ok g2 => applyEdges rest g2

/-- Build the whole dependency graph from a flow. -/
def buildGraph (flow : DAGFlow) : Except FlowErr Graph :=
  let nodes := buildNodes flow.steps []
  applyEdges flow.edges
    ⟨nodes, nodes.map (fun p => (p.1, (0 : Int))), nodes.map (fun p => (p.1, []))⟩

/-- An in-flight future: the step id, its dispatch and completion model
times, the per-step timeout, the argument map the worker passed to the
action (after reserved-key stripping — post-step guards see this same
object), and the worker's outcome. -/
structure Fut where
  nid : String
  start : PyFloat
  finish : PyFloat
  timeout : Option PyFloat
  args : Args
  outcome : Except String Value

/-- Closure `submit_step(nid)`: look up the action, resolve `$result.` references
against the results so far, run the pre-step guards, pop the reserved
`__timeout__` and `__retry__` keys, and hand `_run_with_retries` to the
worker pool.  The future's completion time is the dispatch time plus the
total worker time: one action duration per invocation plus all backoff
sleeps. -/
def submit_step (g : Graph) (registry : List (String × TimedAction))
    (guards : List Guard) (results : List (String × Value)) (now : PyFloat)
    (nid : String) : Except FlowErr Fut :=
  match dget nid g.nodes with
  | none => .error (.keyError nid)
  | some step =>
    match dget step.action registry with
    | none => .error (.actionNotFound step.action)
    | some act =>
      let resolved := resolveArgs results step.args
      match run_pre guards step.id step.action resolved with
      | .error e => .error (.guardPre step.id e)
      | .ok gargs =>
        let (tout, args1) := extractTimeout gargs
        let (rp, args2) := extractRetry args1
        let rp := rp.getD default_retry
        let r := run_with_retries (fun i => act.run i args2) rp
        .ok ⟨nid, now, now.add ((natTimes act.dur r.calls).add (fsum r.sleeps)), tout, args2, r.result⟩

/-- Submit a list of ready node ids in order. -/
def submitAll (g : Graph) (registry : List (String × TimedAction))
    (guards : List Guard) (results : List (String × Value)) (now : PyFloat) :
    List String → Except FlowErr (List Fut)
  | [] => .ok []
  | nid :: rest =>
    match submit_step g registry guards results now nid with
    | .error e => .error e
    | .ok fut =>
      match submitAll g registry guards results now rest with
      | .error e => .error e
      | .ok futs => .ok (fut :: futs)

/-- The earliest completion time among the in-flight futures: the model time
at which `concurrent.futures.wait(..., FIRST_COMPLETED)` returns. -/
def nextWake (f0 : Fut) (futs : List Fut) : PyFloat :=
  (futs.map Fut.finish).foldl PyFloat.min f0.finish

/-- The timeout sweep run right after `wait` returns: scan the futures dict
in insertion order (completed-but-unprocessed futures included) and report
the first step whose elapsed time since dispatch strictly exceeds its
declared timeout. -/
def checkTimeouts (futs : List Fut) (now : PyFloat) : Option (String × PyFloat) :=
  match futs with
  | [] => none
  | f :: rest =>
    match f.timeout with
    | some tout =>
      if (tout.lt (now.sub f.start)) = true then some (f.nid, tout)
      else checkTimeouts rest now
    | none => checkTimeouts rest now

/-- Remove the first future whose completion time is `m` (the one the loop
processes this iteration). -/
def popCompleted (futs : List Fut) (m : PyFloat) : Option (Fut × List Fut) :=
  match futs with
  | [] => none
  | f :: rest =>
    if f.finish = m then some (f, rest)
    else
      match popCompleted rest m with
      | some (g, rest2) => some (g, f :: rest2)
      | none => none

/-- The `for m in outgoing.get(nid, [])` loop: decrement each successor's
in-degree and submit it the moment the counter reaches exactly zero, in
adjacency order.  New futures are appended after the existing ones, as in
the Python `futures` dict. -/
def processSuccessors (g : Graph) (registry : List (String × TimedAction))
    (guards : List Guard) (results : List (String × Value)) (now : PyFloat) :
    List String → List (String × Int) → List Fut →
    Except FlowErr (List (String × Int) × List Fut)
  | [], incoming, futs => .ok (incoming, futs)
  | m :: ms, incoming, futs =>
    match dget m incoming with
    | none => .error (.keyError m)
    | some deg =>
      let incoming2 := dinsert m (deg - 1) incoming
      if deg - 1 = 0 then
        match submit_step g registry guards results now m with
        | .error e => .error e
        | .ok fut => processSuccessors g registry guards results now ms incoming2 (futs ++ [fut])
      else processSuccessors g registry guards results now ms incoming2 futs

/-- The dispatch loop (`while futures:`), one completed future per
iteration, fuel-bounded for totality.  The loop always terminates before the
fuel chosen by `runCore` runs out, because each iteration consumes one
future and at most `len(nodes) + len(edges)` futures are ever submitted; the
fuel branch returns the marker error `.outOfFuel`.  An error result carries
the model time at which the corresponding exception was raised. -/
def runLoop (g : Graph) (registry : List (String × TimedAction))
    (guards : List Guard) :
    Nat → List Fut → List (String × Int) → List (String × Value) →
    Except (FlowErr × PyFloat) (List (String × Value))
  | _, [], _, results => .ok results
  | 0, _ :: _, _, _ => .error (.outOfFuel, 0)
  | fuel + 1, f0 :: futs0, incoming, results =>
    let now := nextWake f0 futs0
    match checkTimeouts (f0 :: futs0) now with
    | some (sid, tout) => .error (.stepTimeout sid tout, now)
    | none =>
      match popCompleted (f0 :: futs0) now with
      | none => .error (.outOfFuel, now)
      | some (fut, rest) =>
        match fut.outcome with
        | .error msg => .error (.stepFailed fut.nid msg, now)
        | .ok res =>
          match dget fut.nid g.nodes with
          | none => .error (.keyError fut.nid, now)
          | some step =>
            match run_post guards fut.nid step.action fut.args res with
            | .error e => .error (.guardPost fut.nid e, now)
            | .ok res2 =>
              let results2 := dinsert fut.nid res2 results
              let succs := (dget fut.nid g.outgoing).getD []
              match processSuccessors g registry guards results2 now succs incoming rest with
              | .error e => .error (e, now)
              | .ok (incoming2, futs2) =>
                runLoop g registry guards fuel futs2 incoming2 results2

/-- The `[nid for nid, deg in incoming.items() if deg == 0]` comprehension. -/
def readyList (g : Graph) : List String :=
  (g.incoming.filter (fun p => p.2 = 0)).map Prod.fst

/-- Method `LocalExecutor.run_dagflow` with error times exposed: build the graph,
submit the zero-in-degree steps, drain the loop, and apply the final
`len(results) != len(nodes)` cycle check. -/
def runCore (flow : DAGFlow) (registry : List (String × TimedAction))
    (guards : List Guard) :
    Except (FlowErr × PyFloat) (List (String × Value)) :=
  match buildGraph flow with
  | .error e => .error (e, 0)
  | .ok g =>
    match submitAll g registry guards [] 0 (readyList g) with
    | .error e => .error (e, 0)
    | .ok futs =>
      match runLoop g registry guards (g.nodes.length + flow.edges.length + 1)
          futs g.incoming [] with
      | .error e => .error e
      | .ok results =>
        if results.length ≠ g.nodes.length then .error (.cycleOrUnreach, 0)
        else .ok results

/-- Method `LocalExecutor.run_dagflow`: the caller-visible result (raised errors
without their model timestamps). -/
def run_dagflow (flow : DAGFlow) (registry : List (String × TimedAction))
    (guards : List Guard) : Except FlowErr (List (String × Value)) :=
  match runCore flow registry guards with
  | .error (e, _) => .error e
  | .ok results => .ok results

/-! State machines (`State`, `StateMachine`, `StateMachine.run`). -/

/-- The `State` dataclass: optional action name and the `on` transition map
(event name to next state id). -/
structure State where
  id : String
  action : Option String
  «on» : List (String × String)

/-- The `StateMachine` dataclass. -/
structure StateMachine where
  id : String
  states : List State
  start_state : Option String
  version : String

/-- Method `StateMachine.add_state`: reject duplicate ids, append, and make the
first added state the start state when none is set yet. -/
def StateMachine.add_state (sm : StateMachine) (st : State) :
    Except FlowErr StateMachine :=
  if sm.states.any (fun s => s.id = st.id) then .error (.duplicateState st.id)
  else .ok { sm with
             states := sm.states ++ [st],
             start_state := match sm.start_state with
                            | none => some st.id
                            | some s0 => some s0 }

/-- A state-machine action: called as `func(event=ev, state=current)`;
an exception propagates out of `StateMachine.run` unwrapped. -/
abbrev SmAction := String → String → Except String Value

/-- The `{s.id: s for s in self.states}` comprehension. -/
def buildStates : List State → List (String × State) → List (String × State)
  | [], acc => acc
  | s :: rest, acc => buildStates rest (dinsert s.id s acc)

/-- The `if st.action:` body of the event loop: run the state's action (when
it names one truthily) and record its result under the current state id. -/
def smAction (registry : List (String × SmAction)) (st : State)
    (current ev : String) (results : List (String × Value)) :
    Except FlowErr (List (String × Value)) :=
  match st.action with
  | none => .ok results
  | some a =>
    if a = "" then .ok results
    else
      match dget a registry with
      | none => .error (.actionNotFound a)
      | some f =>
        match f ev current with
        | .error m => .error (.uncaught m)
        | .ok res => .ok (dinsert current res results)

/-- The event loop body of `StateMachine.run`: look up the current state,
run its action if it has a truthy one, then follow `st.on.get(ev)` — or stop
at the first event with no matching transition. -/
def smRunFrom (states_map : List (String × State))
    (registry : List (String × SmAction)) :
    String → List String → List (String × Value) →
    Except FlowErr (List (String × Value))
  | _, [], results => .ok results
  | current, ev :: rest, results =>
    match dget current states_map with
    | none => .error (.unknownState current)
    | some st =>
      match smAction registry st current ev results with
      | .error e => .error e
      | .ok results2 =>
        match dget ev st.«on» with
        | none => .ok results2
        | some nxt => smRunFrom states_map registry nxt rest results2

/-- Method `StateMachine.run(registry, events)`. -/
def StateMachine.run (sm : StateMachine) (registry : List (String × SmAction))
    (events : List String) : Except FlowErr (List (String × Value)) :=
  match sm.start_state with
  | none => .error .noStartState
  | some s0 =>
    if s0 = "" then .error .noStartState
    else smRunFrom (buildStates sm.states []) registry s0 events []

/-! Process-isolated executor (`ProcessExecutor.run_dagflow`).  The
dotted-path indirection (`_resolve_action_path` / `_process_invoke`) is
abstracted: a registry entry is directly the behaviour of the worker task,
with a distinguished outcome for an unrecoverably broken worker pool. -/

/-- Outcome of `fut.result()` in the process executor: a value, an exception
raised by the action, or `BrokenProcessPool`. -/
inductive TaskOut where
  | ok (v : Value)
  | exc (msg : String)
  | brokenPool (msg : String)

/-- A process-pool task: argument map to task outcome. -/
abbrev ProcAction := Args → TaskOut

/-- The `try: res = fut.result()` handler of `ProcessExecutor.run_dagflow`:
`BrokenProcessPool` is wrapped as the distinguishable pool error, any other
exception as a per-step process-executor failure. -/
def procHandleResult (nid : String) : TaskOut → Except FlowErr Value
  | .ok v => .ok v
  | .brokenPool m => .error (.poolBroken nid m)
  | .exc m => .error (.stepFailedInProcess nid m)

/-- Closure `submit_step` of `ProcessExecutor`: action lookup and `$result.`
resolution (no guards, no reserved keys, no retry in this executor). -/
def procSubmit (g : Graph) (registry : List (String × ProcAction))
    (results : List (String × Value)) (nid : String) :
    Except FlowErr (String × TaskOut) :=
  match dget nid g.nodes with
  | none => .error (.keyError nid)
  | some step =>
    match dget step.action registry with
    | none => .error (.actionNotFound step.action)
    | some act => .ok (nid, act (resolveArgs results step.args))

/-- Submit a list of ready node ids in order (process executor). -/
def procSubmitAll (g : Graph) (registry : List (String × ProcAction))
    (results : List (String × Value)) :
    List String → Except FlowErr (List (String × TaskOut))
  | [] => .ok []
  | nid :: rest =>
    match procSubmit g registry results nid with
    | .error e => .error e
    | .ok fut =>
      match procSubmitAll g registry results rest with
      | .error e => .error e
      | .ok futs => .ok (fut :: futs)

/-- Successor processing for the process executor. -/
def procSuccessors (g : Graph) (registry : List (String × ProcAction))
    (results : List (String × Value)) :
    List String → List (String × Int) → List (String × TaskOut) →
    Except FlowErr (List (String × Int) × List (String × TaskOut))
  | [], incoming, futs => .ok (incoming, futs)
  | m :: ms, incoming, futs =>
    match dget m incoming with
    | none => .error (.keyError m)
    | some deg =>
      let incoming2 := dinsert m (deg - 1) incoming
      if deg - 1 = 0 then
        match procSubmit g registry results m with
        | .error e => .error e
        | .ok fut => procSuccessors g registry results ms incoming2 (futs ++ [fut])
      else procSuccessors g registry results ms incoming2 futs

/-- The process executor's dispatch loop, draining futures in submission
order (one legal completion order). -/
def procLoop (g : Graph) (registry : List (String × ProcAction)) :
    Nat → List (String × TaskOut) → List (String × Int) →
    List (String × Value) → Except FlowErr (List (String × Value))
  | _, [], _, results => .ok results
  | 0, _ :: _, _, _ => .error .outOfFuel
  | fuel + 1, (nid, out) :: rest, incoming, results =>
    match procHandleResult nid out with
    | .error e => .error e
    | .ok res =>
      let results2 := dinsert nid res results
      let succs := (dget nid g.outgoing).getD []
      match procSuccessors g registry results2 succs incoming rest with
      | .error e => .error e
      | .ok (incoming2, futs2) => procLoop g registry fuel futs2 incoming2 results2

/-- Method `ProcessExecutor.run_dagflow`. -/
def proc_run_dagflow (flow : DAGFlow) (registry : List (String × ProcAction)) :
    Except FlowErr (List (String × Value)) :=
  match buildGraph flow with
  | .error e => .error e
  | .ok g =>
    match procSubmitAll g registry [] (readyList g) with
    | .error e => .error e
    | .ok futs =>
      match procLoop g registry (g.nodes.length + flow.edges.length + 1)
          futs g.incoming [] with
      | .error e => .error e
      | .ok results =>
        if results.length ≠ g.nodes.length then .error .notAllExecutedProcess
        else .ok results

/-- The graph invariant: node keys are distinct, the in-degree and adjacency
dicts are keyed exactly by the node ids, and every adjacency target is a
node id. -/
def GraphWF (g : Graph) : Prop :=
  (dkeys g.nodes).Nodup ∧
  dkeys g.incoming = dkeys g.nodes ∧
  dkeys g.outgoing = dkeys g.nodes ∧
  ∀ p ∈ g.outgoing, ∀ t ∈ p.2, t ∈ dkeys g.nodes

/-- A flow with a single step (used to state whole-run propagation facts). -/
def one_step_flow (sid act : String) (args : Args) : DAGFlow :=
  ⟨"f", [⟨sid, act, args⟩], [], "0.1.0"⟩

/-! Concrete flows, registries and guards used to instantiate the theorems
on executable inputs. -/

/-- A two-action registry: integer addition and multiplication, each taking
one unit of model time. -/
def ex_registry : List (String × TimedAction) :=
  [("add", ⟨1, fun _ args =>
      match dget "a" args, dget "b" args with
      | some (.vInt a), some (.vInt b) => .ok (.vInt (a + b))
      | _, _ => .error "type error"⟩),
   ("mul", ⟨1, fun _ args =>
      match dget "x" args, dget "y" args with
      | some (.vInt a), some (.vInt b) => .ok (.vInt (a * b))
      | _, _ => .error "type error"⟩)]

/-- The spec's example flow: `s1: add(a=1, b=2)`, `s2: mul(x=$result.s1,
y=10)`, edge `s1 -> s2`. -/
def ex_flow : DAGFlow :=
  ⟨"f1", [⟨"s1", "add", [("a", .vInt 1), ("b", .vInt 2)]⟩,
          ⟨"s2", "mul", [("x", .vStr "$result.s1"), ("y", .vInt 10)]⟩],
   [("s1", "s2")], "0.1.0"⟩

/-- A two-step flow whose edges form a cycle `a -> b -> a`. -/
def ex_cycle_flow : DAGFlow :=
  ⟨"c", [⟨"a", "add", [("a", .vInt 1), ("b", .vInt 2)]⟩,
         ⟨"b", "add", [("a", .vInt 1), ("b", .vInt 2)]⟩],
   [("a", "b"), ("b", "a")], "0.1.0"⟩

/-- An action whose single invocation takes 5 units of model time. -/
def ex_slow_registry : List (String × TimedAction) :=
  [("slow", ⟨5, fun _ _ => .ok (.vInt 1)⟩)]

/-- A single-step flow declaring a per-step timeout of 1 on a step whose
action runs for 5 units of time. -/
def ex_timeout_flow : DAGFlow :=
  ⟨"t", [⟨"a", "slow", [("__timeout__", .vInt 1)]⟩], [], "0.1.0"⟩

/-- A registry where `echo` returns its own `x` argument, exposing exactly
the value the executor passed into the action. -/
def ex_ref_registry : List (String × TimedAction) :=
  [("c7", ⟨1, fun _ _ => .ok (.vInt 7)⟩),
   ("echo", ⟨1, fun _ args => .ok ((dget "x" args).getD .vNone)⟩)]

/-- Two independent steps (no edge): `s2` references `$result.s1` although
nothing orders it after `s1`. -/
def ex_ref_flow : DAGFlow :=
  ⟨"r", [⟨"s1", "c7", []⟩, ⟨"s2", "echo", [("x", .vStr "$result.s1")]⟩],
   [], "0.1.0"⟩

/-- An action that reports the keys of the argument map it received. -/
def ex_keys_registry : List (String × TimedAction) :=
  [("keys", ⟨1, fun _ args => .ok (.vList (args.map (fun p => .vStr p.1)))⟩)]

/-- A step carrying both reserved argument keys next to a plain argument. -/
def ex_keys_args : Args :=
  [("a", .vInt 1), ("__timeout__", .vInt 100),
   ("__retry__", .vDict [("max_attempts", .vInt 2)])]

/-- A guard whose pre-hook always signals a violation. -/
def ex_guard_fail : Guard :=
  ⟨fun _ _ _ => .error "nope", fun _ _ _ r => .ok r⟩

/-- A guard whose pre-hook returns a non-dict value. -/
def ex_guard_nondict : Guard :=
  ⟨fun _ _ _ => .ok (.vInt 3), fun _ _ _ r => .ok r⟩

/-- A guard whose hooks pass everything through unchanged. -/
def ex_guard_id : Guard :=
  ⟨fun _ _ args => .ok (.vDict args), fun _ _ _ r => .ok r⟩

/-- A two-state machine `A -go-> B -go-> A`, both states running `act`. -/
def ex_sm : StateMachine :=
  ⟨"m", [⟨"A", some "act", [("go", "B")]⟩, ⟨"B", some "act", [("go", "A")]⟩],
   some "A", "0.1.0"⟩

/-- State-machine registry whose action records `state/event`. -/
def ex_sm_registry : List (String × SmAction) :=
  [("act", fun ev st => .ok (.vStr (st ++ "/" ++ ev)))]

/-- A process-pool registry whose only action makes the pool unusable. -/
def ex_proc_registry : List (String × ProcAction) :=
  [("boom", fun _ => .brokenPool "worker died")]

/-- A serialized flow that `DAGFlow.from_dict` accepts although it has a
duplicate step id and an edge pointing at an absent step. -/
def ex_bad_dict : Value :=
  .vDict [("id", .vStr "bad"),
          ("steps", .vList
            [.vDict [("id", .vStr "a"), ("action", .vStr "noop")],
             .vDict [("id", .vStr "a"), ("action", .vStr "noop")]]),
          ("edges", .vList [.vList [.vStr "a", .vStr "zzz"]])]

/-! Library lemmas about the dict operations. -/

theorem dget_dinsert_self (k : String) (v : α) (l : List (String × α)) :
    dget k (dinsert k v l) = some v := by
  induction l with
  | nil => simp [dinsert, dget]
  | cons p rest ih =>
    by_cases h : p.1 = k
    · simp [dinsert, dget, h]
    · simp [dinsert, dget, h, ih]

theorem mem_dkeys_dinsert {k a : String} {v : α} {l : List (String × α)} :
    a ∈ dkeys (dinsert k v l) ↔ a = k ∨ a ∈ dkeys l := by
  induction l with
  | nil => simp [dinsert, dkeys, eq_comm]
  | cons p rest ih =>
    obtain ⟨k2, w⟩ := p
    by_cases h : k2 = k
    · subst h
      have hd : dinsert k2 v ((k2, w) :: rest) = (k2, v) :: rest := by
        simp [dinsert]
      rw [hd]
      simp only [dkeys, List.map_cons, List.mem_cons]
      tauto
    · simp only [dinsert, if_neg h, dkeys, List.map_cons, List.mem_cons] at *
      tauto

theorem dkeys_dinsert_of_mem {k : String} {v : α} {l : List (String × α)}
    (h : k ∈ dkeys l) : dkeys (dinsert k v l) = dkeys l := by
  induction l with
  | nil => simp [dkeys] at h
  | cons p rest ih =>
    by_cases hp : p.1 = k
    · simp [dinsert, hp, dkeys]
    · simp only [dkeys, List.map_cons, List.mem_cons] at h
      rcases h with h | h
      · exact absurd h.symm hp
      · have ih2 := ih h
        simp only [dkeys] at ih2
        simp [dinsert, hp, dkeys, ih2]

theorem dkeys_dinsert_of_not_mem {k : String} {v : α} {l : List (String × α)}
    (h : k ∉ dkeys l) : dkeys (dinsert k v l) = dkeys l ++ [k] := by
  induction l with
  | nil => simp [dinsert, dkeys]
  | cons p rest ih =>
    simp only [dkeys, List.map_cons, List.mem_cons] at h
    push_neg at h
    have hp : p.1 ≠ k := fun hc => h.1 hc.symm
    have ih2 := ih h.2
    simp only [dkeys] at ih2
    simp [dinsert, hp, dkeys, ih2]

theorem nodup_dkeys_dinsert {k : String} {v : α} {l : List (String × α)}
    (h : (dkeys l).Nodup) : (dkeys (dinsert k v l)).Nodup := by
  by_cases hm : k ∈ dkeys l
  · rwa [dkeys_dinsert_of_mem hm]
  · rw [dkeys_dinsert_of_not_mem hm]
    simpa using List.Nodup.append h (by simp) (by simpa using fun hk => hm hk)

theorem dget_mem {k : String} {v : α} {l : List (String × α)}
    (h : dget k l = some v) : (k, v) ∈ l := by
  induction l with
  | nil => simp [dget] at h
  | cons p rest ih =>
    by_cases hp : p.1 = k
    · rw [dget, if_pos hp] at h
      have hpv : p = (k, v) := by
        cases p
        injection h with h2
        simp_all
      rw [hpv]
      exact List.mem_cons_self _ _
    · rw [dget, if_neg hp] at h
      exact List.mem_cons_of_mem _ (ih h)

theorem dget_isSome_of_mem {k : String} {l : List (String × α)}
    (h : k ∈ dkeys l) : (dget k l).isSome := by
  induction l with
  | nil => simp [dkeys] at h
  | cons p rest ih =>
    by_cases hp : p.1 = k
    · simp [dget, hp]
    · simp only [dkeys, List.map_cons, List.mem_cons] at h
      rcases h with h | h
      · exact absurd h.symm hp
      · simpa [dget, hp] using ih h

theorem mem_dkeys_of_dget {k : String} {v : α} {l : List (String × α)}
    (h : dget k l = some v) : k ∈ dkeys l := by
  have := dget_mem h
  exact List.mem_map.mpr ⟨(k, v), this, rfl⟩

theorem length_dinsert_le (k : String) (v : α) (l : List (String × α)) :
    (dinsert k v l).length ≤ l.length + 1 := by
  induction l with
  | nil => simp [dinsert]
  | cons p rest ih =>
    by_cases hp : p.1 = k
    · simp [dinsert, hp]
    · simpa [dinsert, hp] using ih

theorem derase_sublist (k : String) (l : List (String × α)) :
    List.Sublist (derase k l) l := by
  induction l with
  | nil => simp [derase]
  | cons p rest ih =>
    by_cases hp : p.1 = k
    · rw [derase, if_pos hp]
      exact List.sublist_cons_self p rest
    · rw [derase, if_neg hp]
      exact List.Sublist.cons₂ p ih

theorem mem_derase_of_ne {k : String} {p : String × α} {l : List (String × α)}
    (hne : p.1 ≠ k) (hm : p ∈ l) : p ∈ derase k l := by
  induction l with
  | nil => simp at hm
  | cons q rest ih =>
    by_cases hq : q.1 = k
    · rcases List.mem_cons.mp hm with hm | hm
      · exact absurd (hm ▸ hq) hne
      · simpa [derase, hq] using hm
    · rcases List.mem_cons.mp hm with hm | hm
      · simp [derase, hq, hm]
      · simp [derase, hq, ih hm]

theorem not_mem_dkeys_derase {k : String} {l : List (String × α)}
    (h : (dkeys l).Nodup) : k ∉ dkeys (derase k l) := by
  induction l with
  | nil => simp [derase, dkeys]
  | cons p rest ih =>
    simp only [dkeys, List.map_cons, List.nodup_cons] at h
    by_cases hp : p.1 = k
    · rw [derase, if_pos hp]
      subst hp
      exact h.1
    · rw [derase, if_neg hp]
      intro hc
      rcases List.mem_cons.mp hc with hc | hc
      · exact hp hc.symm
      · exact ih h.2 hc

theorem nodup_dkeys_derase {k : String} {l : List (String × α)}
    (h : (dkeys l).Nodup) : (dkeys (derase k l)).Nodup := by
  have : List.Sublist (dkeys (derase k l)) (dkeys l) :=
    List.Sublist.map Prod.fst (derase_sublist k l)
  exact this.nodup h

theorem mem_of_mem_derase {k : String} {p : String × α} {l : List (String × α)}
    (h : p ∈ derase k l) : p ∈ l :=
  (derase_sublist k l).subset h

theorem mem_dinsert {p : String × α} {k : String} {v : α} {l : List (String × α)}
    (h : p ∈ dinsert k v l) : p = (k, v) ∨ p ∈ l := by
  induction l with
  | nil => simpa [dinsert] using h
  | cons q rest ih =>
    by_cases hq : q.1 = k
    · rw [dinsert, if_pos hq] at h
      rcases List.mem_cons.mp h with h | h
      · exact Or.inl h
      · exact Or.inr (List.mem_cons_of_mem _ h)
    · rw [dinsert, if_neg hq] at h
      rcases List.mem_cons.mp h with h | h
      · exact Or.inr (h ▸ List.mem_cons_self _ _)
      · rcases ih h with h | h
        · exact Or.inl h
        · exact Or.inr (List.mem_cons_of_mem _ h)

/-! Well-formedness of the dependency graph built by the executors, and the
invariants of the dispatch loop that give the key-set property of the
returned result map. -/

theorem buildNodes_nodup (steps : List Step) (acc : List (String × Step))
    (h : (dkeys acc).Nodup) : (dkeys (buildNodes steps acc)).Nodup := by
  induction steps generalizing acc with
  | nil => simpa [buildNodes] using h
  | cons s rest ih => exact ih _ (nodup_dkeys_dinsert h)

theorem mem_dkeys_buildNodes (steps : List Step) (acc : List (String × Step))
    (k : String) :
    k ∈ dkeys (buildNodes steps acc) ↔ k ∈ dkeys acc ∨ k ∈ steps.map Step.id := by
  induction steps generalizing acc with
  | nil => simp [buildNodes]
  | cons s rest ih =>
    rw [buildNodes, ih]
    simp only [mem_dkeys_dinsert, List.map_cons, List.mem_cons]
    tauto

theorem applyEdge_wf {g g2 : Graph} {e : String × String} (hwf : GraphWF g)
    (h : applyEdge g e = .ok g2) : GraphWF g2 ∧ g2.nodes = g.nodes := by
  obtain ⟨hnd, hin, hout, hval⟩ := hwf
  unfold applyEdge at h
  cases hget1 : dget e.1 g.outgoing with
  | none => rw [hget1] at h; exact absurd h (by simp)
  | some outs =>
    rw [hget1] at h
    cases hget2 : dget e.2 g.incoming with
    | none => rw [hget2] at h; exact absurd h (by simp)
    | some deg =>
      rw [hget2] at h
      injection h with h
      subst h
      have hmem1 : e.1 ∈ dkeys g.outgoing := mem_dkeys_of_dget hget1
      have hmem2 : e.2 ∈ dkeys g.incoming := mem_dkeys_of_dget hget2
      refine ⟨⟨hnd, ?_, ?_, ?_⟩, rfl⟩
      · rw [dkeys_dinsert_of_mem hmem2, hin]
      · rw [dkeys_dinsert_of_mem hmem1, hout]
      · intro p hp t ht
        rcases mem_dinsert hp with hp | hp
        · subst hp
          rcases List.mem_append.mp ht with ht | ht
          · exact hval _ (dget_mem hget1) _ ht
          · rw [List.mem_singleton.mp ht]
            rw [← hin]
            exact hmem2
        · exact hval _ hp _ ht

theorem applyEdges_wf {g g2 : Graph} {edges : List (String × String)}
    (hwf : GraphWF g) (h : applyEdges edges g = .ok g2) :
    GraphWF g2 ∧ g2.nodes = g.nodes := by
  induction edges generalizing g with
  | nil =>
    rw [applyEdges] at h
    injection h with h
    subst h
    exact ⟨hwf, rfl⟩
  | cons e rest ih =>
    rw [applyEdges] at h
    cases happ : applyEdge g e with
    | error err => rw [happ] at h; exact absurd h (by simp)
    | ok gmid =>
      rw [happ] at h
      obtain ⟨hwf2, hnodes⟩ := applyEdge_wf hwf happ
      obtain ⟨hwf3, hnodes2⟩ := ih hwf2 h
      exact ⟨hwf3, hnodes2.trans hnodes⟩

theorem buildGraph_wf {flow : DAGFlow} {g : Graph}
    (h : buildGraph flow = .ok g) :
    GraphWF g ∧ g.nodes = buildNodes flow.steps [] ∧
    (∀ k, k ∈ dkeys g.nodes ↔ k ∈ flow.steps.map Step.id) := by
  unfold buildGraph at h
  have hnd : (dkeys (buildNodes flow.steps [])).Nodup :=
    buildNodes_nodup _ _ (by simp [dkeys])
  have hwf0 : GraphWF ⟨buildNodes flow.steps [],
      (buildNodes flow.steps []).map (fun p => (p.1, (0 : Int))),
      (buildNodes flow.steps []).map (fun p => (p.1, ([] : List String)))⟩ := by
    refine ⟨hnd, ?_, ?_, ?_⟩
    · simp [dkeys, List.map_map]
    · simp [dkeys, List.map_map]
    · intro p hp t ht
      rcases List.mem_map.mp hp with ⟨q, _, hq⟩
      rw [← hq] at ht
      simp at ht
  obtain ⟨hwf, hnodes⟩ := applyEdges_wf hwf0 h
  refine ⟨hwf, hnodes, fun k => ?_⟩
  rw [hnodes]
  rw [mem_dkeys_buildNodes]
  simp [dkeys]

theorem submit_step_nid {g : Graph} {registry : List (String × TimedAction)}
    {guards : List Guard} {results : List (String × Value)} {now : PyFloat}
    {nid : String} {fut : Fut}
    (h : submit_step g registry guards results now nid = .ok fut) :
    fut.nid = nid := by
  unfold submit_step at h
  cases h1 : dget nid g.nodes with
  | none => rw [h1] at h; exact absurd h (by simp)
  | some step =>
    rw [h1] at h
    simp only at h
    cases h2 : dget step.action registry with
    | none => rw [h2] at h; exact absurd h (by simp)
    | some act =>
      rw [h2] at h
      cases h3 : run_pre guards step.id step.action (resolveArgs results step.args) with
      | error e => rw [h3] at h; exact absurd h (by simp)
      | ok gargs =>
        rw [h3] at h
        simp only at h
        injection h with h
        rw [← h]

theorem submitAll_nids {g : Graph} {registry : List (String × TimedAction)}
    {guards : List Guard} {results : List (String × Value)} {now : PyFloat}
    {l : List String} {futs : List Fut}
    (h : submitAll g registry guards results now l = .ok futs) :
    ∀ f ∈ futs, f.nid ∈ l := by
  induction l generalizing futs with
  | nil =>
    rw [submitAll] at h
    injection h with h
    subst h
    simp
  | cons nid rest ih =>
    rw [submitAll] at h
    cases h1 : submit_step g registry guards results now nid with
    | error e => rw [h1] at h; exact absurd h (by simp)
    | ok fut =>
      rw [h1] at h
      cases h2 : submitAll g registry guards results now rest with
      | error e => rw [h2] at h; exact absurd h (by simp)
      | ok futs2 =>
        rw [h2] at h
        injection h with h
        subst h
        intro f hf
        rcases List.mem_cons.mp hf with hf | hf
        · subst hf
          rw [submit_step_nid h1]
          exact List.mem_cons_self _ _
        · exact List.mem_cons_of_mem _ (ih h2 f hf)

theorem popCompleted_mem {futs rest : List Fut} {m : PyFloat} {fut : Fut}
    (h : popCompleted futs m = some (fut, rest)) :
    fut ∈ futs ∧ ∀ f ∈ rest, f ∈ futs := by
  induction futs generalizing rest with
  | nil => simp [popCompleted] at h
  | cons f0 rest0 ih =>
    rw [popCompleted] at h
    by_cases hf : f0.finish = m
    · rw [if_pos hf] at h
      injection h with h
      rw [Prod.mk.injEq] at h
      obtain ⟨h1, h2⟩ := h
      subst h1
      subst h2
      exact ⟨List.mem_cons_self _ _, fun f hf2 => List.mem_cons_of_mem _ hf2⟩
    · rw [if_neg hf] at h
      cases h2 : popCompleted rest0 m with
      | none => rw [h2] at h; exact absurd h (by simp)
      | some p =>
        obtain ⟨g2, rest2⟩ := p
        rw [h2] at h
        simp only at h
        injection h with h
        rw [Prod.mk.injEq] at h
        obtain ⟨he1, he2⟩ := h
        subst he1
        subst he2
        obtain ⟨ih1, ih2⟩ := ih h2
        refine ⟨List.mem_cons_of_mem _ ih1, fun f hf2 => ?_⟩
        rcases List.mem_cons.mp hf2 with hf2 | hf2
        · exact hf2 ▸ List.mem_cons_self _ _
        · exact List.mem_cons_of_mem _ (ih2 f hf2)

theorem processSuccessors_nids {g : Graph} {registry : List (String × TimedAction)}
    {guards : List Guard} {results : List (String × Value)} {now : PyFloat}
    {succs : List String} {incoming incoming2 : List (String × Int)}
    {futs futs2 : List Fut} {ids : List String}
    (hsucc : ∀ t ∈ succs, t ∈ ids) (hfut : ∀ f ∈ futs, f.nid ∈ ids)
    (h : processSuccessors g registry guards results now succs incoming futs =
      .ok (incoming2, futs2)) :
    ∀ f ∈ futs2, f.nid ∈ ids := by
  induction succs generalizing incoming futs with
  | nil =>
    rw [processSuccessors] at h
    injection h with h
    have : futs = futs2 := congrArg Prod.snd h
    exact this ▸ hfut
  | cons m ms ih =>
    rw [processSuccessors] at h
    cases h1 : dget m incoming with
    | none => rw [h1] at h; exact absurd h (by simp)
    | some deg =>
      rw [h1] at h
      simp only at h
      by_cases hz : deg - 1 = 0
      · rw [if_pos hz] at h
        cases h2 : submit_step g registry guards results now m with
        | error e => rw [h2] at h; exact absurd h (by simp)
        | ok fut =>
          rw [h2] at h
          refine ih (fun t ht => hsucc t (List.mem_cons_of_mem _ ht)) ?_ h
          intro f hf
          rcases List.mem_append.mp hf with hf | hf
          · exact hfut f hf
          · rw [List.mem_singleton.mp hf, submit_step_nid h2]
            exact hsucc m (List.mem_cons_self _ _)
      · rw [if_neg hz] at h
        exact ih (fun t ht => hsucc t (List.mem_cons_of_mem _ ht)) hfut h

/-- Loop invariant: starting from futures whose ids are node ids and a
results dict with distinct node-id keys, a normally drained loop returns a
results dict with distinct node-id keys. -/
theorem runLoop_ok_inv {g : Graph} {registry : List (String × TimedAction)}
    {guards : List Guard} (hwf : GraphWF g) :
    ∀ (fuel : Nat) (futs : List Fut) (incoming : List (String × Int))
      (results r : List (String × Value)),
      (∀ f ∈ futs, f.nid ∈ dkeys g.nodes) →
      (dkeys results).Nodup →
      (∀ k ∈ dkeys results, k ∈ dkeys g.nodes) →
      runLoop g registry guards fuel futs incoming results = .ok r →
      (dkeys r).Nodup ∧ ∀ k ∈ dkeys r, k ∈ dkeys g.nodes := by
  intro fuel
  induction fuel with
  | zero =>
    intro futs incoming results r hfut hnd hsub h
    cases futs with
    | nil =>
      rw [runLoop] at h
      injection h with h
      subst h
      exact ⟨hnd, hsub⟩
    | cons f0 rest => rw [runLoop] at h; exact absurd h (by simp)
  | succ fuel ih =>
    intro futs incoming results r hfut hnd hsub h
    cases futs with
    | nil =>
      rw [runLoop] at h
      injection h with h
      subst h
      exact ⟨hnd, hsub⟩
    | cons f0 futs0 =>
      rw [runLoop] at h
      cases hct : checkTimeouts (f0 :: futs0) (nextWake f0 futs0) with
      | some p => rw [hct] at h; exact absurd h (by simp)
      | none =>
        rw [hct] at h
        cases hpc : popCompleted (f0 :: futs0) (nextWake f0 futs0) with
        | none => rw [hpc] at h; exact absurd h (by simp)
        | some p =>
          obtain ⟨fut, rest⟩ := p
          rw [hpc] at h
          simp only at h
          cases hout : fut.outcome with
          | error msg => rw [hout] at h; exact absurd h (by simp)
          | ok res =>
            rw [hout] at h
            simp only at h
            cases hn : dget fut.nid g.nodes with
            | none => rw [hn] at h; exact absurd h (by simp)
            | some step =>
              rw [hn] at h
              simp only at h
              cases hpost : run_post guards fut.nid step.action fut.args res with
              | error e => rw [hpost] at h; exact absurd h (by simp)
              | ok res2 =>
                rw [hpost] at h
                simp only at h
                cases hps : processSuccessors g registry guards
                    (dinsert fut.nid res2 results) (nextWake f0 futs0)
                    ((dget fut.nid g.outgoing).getD []) incoming rest with
                | error e => rw [hps] at h; exact absurd h (by simp)
                | ok q =>
                  obtain ⟨incoming2, futs2⟩ := q
                  rw [hps] at h
                  obtain ⟨hfm, hrm⟩ := popCompleted_mem hpc
                  have hfutnid : fut.nid ∈ dkeys g.nodes := hfut fut hfm
                  have hsucc : ∀ t ∈ (dget fut.nid g.outgoing).getD [],
                      t ∈ dkeys g.nodes := by
                    cases ho : dget fut.nid g.outgoing with
                    | none => simp
                    | some succs =>
                      simpa using hwf.2.2.2 _ (dget_mem ho)
                  refine ih futs2 incoming2 (dinsert fut.nid res2 results) r
                    (processSuccessors_nids hsucc (fun f hf => hfut f (hrm f hf)) hps)
                    (nodup_dkeys_dinsert hnd) ?_ h
                  intro k hk
                  rcases mem_dkeys_dinsert.mp hk with hk | hk
                  · exact hk ▸ hfutnid
                  · exact hsub k hk

theorem readyList_subset {g : Graph} : ∀ k ∈ readyList g, k ∈ dkeys g.incoming := by
  intro k hk
  rcases List.mem_map.mp hk with ⟨p, hp, hpk⟩
  exact hpk ▸ List.mem_map.mpr ⟨p, (List.mem_filter.mp hp).1, rfl⟩

/-- C1: for every DAGFlow whose actions are all present in the registry,
executing the flow with the local executor either returns a result map whose
key set equals the full step-id set, or raises an error (the `Except` return
carries no partial map on the error side); and if the dispatch loop drains
with fewer completed steps than the step count — a cycle or unreachable node
— the run fails with the graph error `cycleOrUnreach`. -/
theorem C1_run_dagflow_keyset_or_graph_error (flow : DAGFlow)
    (registry : List (String × TimedAction)) (guards : List Guard)
    (hreg : ∀ s ∈ flow.steps, (dget s.action registry).isSome) :
    (∀ r, run_dagflow flow registry guards = .ok r →
      ∀ k, k ∈ dkeys r ↔ k ∈ flow.steps.map Step.id) ∧
    (∀ g futs r, buildGraph flow = .ok g →
      submitAll g registry guards [] 0 (readyList g) = .ok futs →
      runLoop g registry guards (g.nodes.length + flow.edges.length + 1)
        futs g.incoming [] = .ok r →
      r.length < g.nodes.length →
      run_dagflow flow registry guards = .error .cycleOrUnreach) := by
  constructor
  · intro r h k
    unfold run_dagflow runCore at h
    cases hbg : buildGraph flow with
    | error e => rw [hbg] at h; exact absurd h (by simp)
    | ok g =>
      rw [hbg] at h
      simp only at h
      cases hsa : submitAll g registry guards [] 0 (readyList g) with
      | error e => rw [hsa] at h; exact absurd h (by simp)
      | ok futs =>
        rw [hsa] at h
        simp only at h
        cases hloop : runLoop g registry guards
            (g.nodes.length + flow.edges.length + 1) futs g.incoming [] with
        | error e => rw [hloop] at h; exact absurd h (by simp)
        | ok results =>
          rw [hloop] at h
          simp only at h
          by_cases hlen : results.length ≠ g.nodes.length
          · rw [if_pos hlen] at h
            exact absurd h (by simp)
          · rw [if_neg hlen] at h
            simp only at h
            injection h with h
            subst h
            push_neg at hlen
            obtain ⟨hwf, _, hids⟩ := buildGraph_wf hbg
            have hfut : ∀ f ∈ futs, f.nid ∈ dkeys g.nodes := by
              intro f hf
              have := submitAll_nids hsa f hf
              have := readyList_subset _ this
              rw [hwf.2.1] at this
              exact this
            obtain ⟨hnd, hsubkeys⟩ := runLoop_ok_inv hwf _ futs g.incoming [] results
              hfut (by simp [dkeys]) (by simp [dkeys]) hloop
            have hsp : List.Subperm (dkeys results) (dkeys g.nodes) :=
              List.subperm_of_subset hnd hsubkeys
            have hlen2 : (dkeys g.nodes).length ≤ (dkeys results).length := by
              simp only [dkeys, List.length_map]
              omega
            have hperm := hsp.perm_of_length_le hlen2
            rw [← hids k]
            exact hperm.mem_iff
  · intro g futs r hbg hsa hloop hlt
    unfold run_dagflow runCore
    rw [hbg]
    simp only
    rw [hsa]
    simp only
    rw [hloop]
    simp only
    rw [if_pos (Nat.ne_of_lt hlt)]

/-- Witness for C1: on the spec's example flow the returned key set is
`{s1, s2}`, and on the cyclic flow `a -> b -> a` the run fails with the
graph error. -/
theorem C1_witness :
    (∀ k, k ∈ dkeys [("s1", Value.vInt 3), ("s2", Value.vInt 30)] ↔
      k ∈ ex_flow.steps.map Step.id) ∧
    run_dagflow ex_cycle_flow ex_registry [] = .error .cycleOrUnreach := by
  constructor
  · exact (C1_run_dagflow_keyset_or_graph_error ex_flow ex_registry []
      (by decide)).1 [("s1", Value.vInt 3), ("s2", Value.vInt 30)] (by rfl)
  · exact (C1_run_dagflow_keyset_or_graph_error ex_cycle_flow ex_registry []
      (by decide)).2
      ⟨[("a", ⟨"a", "add", [("a", .vInt 1), ("b", .vInt 2)]⟩),
        ("b", ⟨"b", "add", [("a", .vInt 1), ("b", .vInt 2)]⟩)],
       [("a", 1), ("b", 1)], [("a", ["b"]), ("b", ["a"])]⟩
      [] [] (by rfl) (by rfl) (by rfl) (by decide)

theorem retry_go_ok_last (outcome : Nat → Except String Value)
    (e : Nat → String) (v : Value) (m : PyFloat) :
    ∀ (r done : Nat) (b : PyFloat),
      (∀ i, i < r → outcome (done + i) = .error (e (done + i))) →
      outcome (done + r) = .ok v →
      retry_go outcome m done (r + 1) b = ⟨.ok v, r + 1, backoffSeq b m r⟩ := by
  intro r
  induction r with
  | zero =>
    intro done b hfail hok
    rw [Nat.add_zero] at hok
    simp [retry_go, hok, backoffSeq]
  | succ r ih =>
    intro done b hfail hok
    have h0 : outcome done = .error (e done) := by
      simpa using hfail 0 (Nat.succ_pos r)
    rw [retry_go, h0]
    simp only [if_neg (Nat.succ_ne_zero r)]
    have ihfail : ∀ i, i < r → outcome (done + 1 + i) = .error (e (done + 1 + i)) := by
      intro i hi
      have heq : done + 1 + i = done + (i + 1) := by omega
      rw [heq]
      exact hfail (i + 1) (by omega)
    have ihok : outcome (done + 1 + r) = .ok v := by
      have heq : done + 1 + r = done + (r + 1) := by omega
      rw [heq]
      exact hok
    rw [ih (done + 1) (b.mul m) ihfail ihok]
    rfl

theorem retry_go_all_fail (outcome : Nat → Except String Value)
    (e : Nat → String) (m : PyFloat)
    (hfail : ∀ i, outcome i = .error (e i)) :
    ∀ (r done : Nat) (b : PyFloat),
      retry_go outcome m done (r + 1) b =
        ⟨.error (e (done + r)), r + 1, backoffSeq b m r⟩ := by
  intro r
  induction r with
  | zero =>
    intro done b
    simp [retry_go, hfail done, backoffSeq]
  | succ r ih =>
    intro done b
    rw [retry_go, hfail done]
    simp only [if_neg (Nat.succ_ne_zero r)]
    rw [ih (done + 1) (b.mul m)]
    have heq : done + 1 + r = done + (r + 1) := by omega
    rw [heq]
    rfl

/-- C2: for a step with retry policy `max_attempts = k`: if the action fails
on its first `k-1` invocations and succeeds on the `k`-th, the retry loop
returns the success result after exactly `k` invocations; if the action
always fails, the loop propagates the last failure after exactly `k`
invocations; in both cases the sleeps between consecutive attempts are the
current backoff, multiplied by the multiplier after each sleep
(`backoffSeq`). -/
theorem C2_run_with_retries (outcome : Nat → Except String Value)
    (e : Nat → String) (k : Nat) (b m : PyFloat) (v : Value) (hk : 1 ≤ k) :
    ((∀ i, i < k - 1 → outcome i = .error (e i)) → outcome (k - 1) = .ok v →
      run_with_retries outcome ⟨k, b, m⟩ = ⟨.ok v, k, backoffSeq b m (k - 1)⟩) ∧
    ((∀ i, outcome i = .error (e i)) →
      run_with_retries outcome ⟨k, b, m⟩ =
        ⟨.error (e (k - 1)), k, backoffSeq b m (k - 1)⟩) := by
  obtain ⟨r, rfl⟩ : ∃ r, k = r + 1 := ⟨k - 1, by omega⟩
  simp only [Nat.add_sub_cancel]
  constructor
  · intro hfail hok
    have := retry_go_ok_last outcome e v m r 0 b
      (fun i hi => by simpa using hfail i hi) (by simpa using hok)
    simpa [run_with_retries] using this
  · intro hfail
    have := retry_go_all_fail outcome e m hfail r 0 b
    simpa [run_with_retries] using this

/-- Witness for C2: a step failing twice then succeeding with
`max_attempts = 3` succeeds after 3 calls with sleeps `[1/2, 1]` (the second
sleep represented as `2/2`); an always-failing step with `max_attempts = 2`
propagates the failure after 2 calls. -/
theorem C2_witness :
    run_with_retries
        (fun i => match i with
          | 0 => .error "t"
          | 1 => .error "t"
          | _ => .ok (.vStr "ok")) ⟨3, ⟨1, 2⟩, ⟨2, 1⟩⟩ =
      ⟨.ok (.vStr "ok"), 3, backoffSeq ⟨1, 2⟩ ⟨2, 1⟩ 2⟩ ∧
    run_with_retries (fun _ => .error "boom") ⟨2, ⟨1, 1⟩, ⟨3, 1⟩⟩ =
      ⟨.error "boom", 2, backoffSeq ⟨1, 1⟩ ⟨3, 1⟩ 1⟩ := by
  constructor
  · exact (C2_run_with_retries
      (fun i => match i with
        | 0 => .error "t"
        | 1 => .error "t"
        | _ => .ok (.vStr "ok"))
      (fun _ => "t") 3 ⟨1, 2⟩ ⟨2, 1⟩ (.vStr "ok") (by decide)).1
      (by intro i hi; interval_cases i <;> rfl) (by rfl)
  · exact (C2_run_with_retries (fun _ => .error "boom") (fun _ => "boom")
      2 ⟨1, 1⟩ ⟨3, 1⟩ .vNone (by decide)).2 (fun _ => rfl)

/-- Counterexample for C3: a single step with timeout 1 whose action runs
for 5 time units.  The worker future completes normally with the action's
result (the action is not interrupted), and the timeout error is raised only
at model time 5 — the completion time of the step itself — although the
declared timeout had expired at time 1.  Enforcement therefore required the
step to complete, contradicting the claim. -/
theorem C3_counterexample :
    runCore ex_timeout_flow ex_slow_registry [] =
      .error (.stepTimeout "a" (.ofInt 1), .ofInt 5) ∧
    PyFloat.lt (.ofInt 1) (.ofInt 5) = true ∧
    submit_step ⟨[("a", ⟨"a", "slow", [("__timeout__", .vInt 1)]⟩)],
        [("a", 0)], [("a", [])]⟩ ex_slow_registry [] [] 0 "a" =
      .ok ⟨"a", 0, ⟨5, 1⟩, some (.ofInt 1), [], .ok (.vInt 1)⟩ := by
  refine ⟨rfl, rfl, rfl⟩

/-- C3 amended: the local executor checks per-step timeouts only when some
dispatched future completes (`concurrent.futures.wait` returns).  At such a
completion event, if the timeout sweep finds an in-flight or just-completed
step whose elapsed wall-clock time since dispatch strictly exceeds its
declared timeout, the whole run fails at that event with a timeout error
naming the step id and the timeout value; errors raised inside the loop
abort `run_dagflow` as a whole. -/
theorem C3_amended_timeout_checked_on_completion :
    (∀ (g : Graph) (registry : List (String × TimedAction))
       (guards : List Guard) (fuel : Nat) (f0 : Fut) (futs0 : List Fut)
       (incoming : List (String × Int)) (results : List (String × Value))
       (sid : String) (tout : PyFloat),
      checkTimeouts (f0 :: futs0) (nextWake f0 futs0) = some (sid, tout) →
      runLoop g registry guards (fuel + 1) (f0 :: futs0) incoming results =
        .error (.stepTimeout sid tout, nextWake f0 futs0)) ∧
    (∀ (flow : DAGFlow) (registry : List (String × TimedAction))
       (guards : List Guard) (e : FlowErr) (t : PyFloat),
      runCore flow registry guards = .error (e, t) →
      run_dagflow flow registry guards = .error e) := by
  constructor
  · intro g registry guards fuel f0 futs0 incoming results sid tout hct
    rw [runLoop]
    simp only [hct]
  · intro flow registry guards e t h
    unfold run_dagflow
    rw [h]

/-- Witness for C3's amended theorem: the timeout sweep on the example
future fires at its completion time, and the whole example run surfaces the
timeout error. -/
theorem C3_amended_witness :
    runLoop ⟨[], [], []⟩ [] [] 1
        [⟨"a", 0, ⟨5, 1⟩, some (.ofInt 1), [], .ok (.vInt 1)⟩] [] [] =
      .error (.stepTimeout "a" (.ofInt 1),
        nextWake ⟨"a", 0, ⟨5, 1⟩, some (.ofInt 1), [], .ok (.vInt 1)⟩ []) ∧
    run_dagflow ex_timeout_flow ex_slow_registry [] =
      .error (.stepTimeout "a" (.ofInt 1)) := by
  constructor
  · exact C3_amended_timeout_checked_on_completion.1 ⟨[], [], []⟩ [] [] 0
      ⟨"a", 0, ⟨5, 1⟩, some (.ofInt 1), [], .ok (.vInt 1)⟩ [] [] []
      "a" (.ofInt 1) (by rfl)
  · exact C3_amended_timeout_checked_on_completion.2 ex_timeout_flow
      ex_slow_registry [] (.stepTimeout "a" (.ofInt 1)) (.ofInt 5) (by rfl)

/-- Counterexample for C4: `s2` references `$result.s1` with no edge
ordering it after `s1`, so at submission the reference is unresolved.  The
run does not fail fast — it succeeds, and the `echo` action received the
`None` placeholder, which is recorded as `s2`'s result. -/
theorem C4_counterexample :
    run_dagflow ex_ref_flow ex_ref_registry [] =
      .ok [("s1", .vInt 7), ("s2", .vNone)] := rfl

theorem stripResultRef_append (sid : String) :
    stripResultRef (String.append "$result." sid) = some sid := by
  cases sid with
  | mk l => rfl

/-- C4 amended: a `$result.<id>` argument reference is resolved with
`results.get(ref_id)`: when the referenced step has no recorded result the
value silently resolves to `None` (and that placeholder is passed on to the
action); when it has one, the recorded result is substituted.  Resolution
never raises and never blocks. -/
theorem C4_amended_unresolved_ref_resolves_to_none (sid : String)
    (results : List (String × Value)) :
    (dget sid results = none →
      resolveValue results (.vStr (String.append "$result." sid)) = .vNone) ∧
    (∀ v, dget sid results = some v →
      resolveValue results (.vStr (String.append "$result." sid)) = v) := by
  constructor
  · intro h
    simp [resolveValue, stripResultRef_append, h]
  · intro v h
    simp [resolveValue, stripResultRef_append, h]

/-- Witness for C4's amended theorem at an empty and a populated results
map. -/
theorem C4_amended_witness :
    resolveValue [] (.vStr (String.append "$result." "s1")) = .vNone ∧
    resolveValue [("s1", .vInt 3)] (.vStr (String.append "$result." "s1")) =
      .vInt 3 := by
  constructor
  · exact (C4_amended_unresolved_ref_resolves_to_none "s1" []).1 (by rfl)
  · exact (C4_amended_unresolved_ref_resolves_to_none "s1"
      [("s1", .vInt 3)]).2 (.vInt 3) (by rfl)

theorem step_roundtrip (s : Step) : Step.from_dict (Step.to_dict s) = some s := by
  obtain ⟨i, a, args⟩ := s
  rfl

theorem decodeSteps_map (l : List Step) :
    decodeSteps (l.map Step.to_dict) = some l := by
  induction l with
  | nil => rfl
  | cons s rest ih =>
    simp only [List.map_cons, decodeSteps, step_roundtrip, ih]

theorem decodeEdges_map (l : List (String × String)) :
    decodeEdges (l.map (fun e => Value.vList [.vStr e.1, .vStr e.2])) = some l := by
  induction l with
  | nil => rfl
  | cons e rest ih =>
    simp only [List.map_cons, decodeEdges, decodeEdge, ih]

/-- C5: deserialising the serialisation of any flow reproduces the flow —
same id, same version, the same step sequence (actions and argument maps
included), and an edge list equal as a set (here even equal as a list). -/
theorem C5_serialization_roundtrip (f : DAGFlow) :
    ∃ f2, DAGFlow.from_dict (DAGFlow.to_dict f) = some f2 ∧
      f2.id = f.id ∧ f2.version = f.version ∧ f2.steps = f.steps ∧
      ∀ e, e ∈ f2.edges ↔ e ∈ f.edges := by
  refine ⟨f, ?_, rfl, rfl, rfl, fun e => Iff.rfl⟩
  obtain ⟨i, steps, edges, ver⟩ := f
  simp [DAGFlow.to_dict, DAGFlow.from_dict, dget, decodeSteps_map, decodeEdges_map]

theorem run_pre_append (gs1 gs2 : List Guard) (sid act : String) :
    ∀ (args args1 : Args), run_pre gs1 sid act args = .ok args1 →
      run_pre (gs1 ++ gs2) sid act args = run_pre gs2 sid act args1 := by
  induction gs1 with
  | nil =>
    intro args args1 h
    rw [run_pre] at h
    injection h with h
    subst h
    rfl
  | cons g rest ih =>
    intro args args1 h
    rw [run_pre] at h
    cases hg : g.pre_step sid act args with
    | error e => rw [hg] at h; exact absurd h (by simp)
    | ok v =>
      rw [hg] at h
      cases v with
      | vDict cur =>
        simp only at h
        rw [List.cons_append, run_pre, hg]
        exact ih cur args1 h
      | vNone => exact absurd h (by simp)
      | vInt n => exact absurd h (by simp)
      | vFloat q => exact absurd h (by simp)
      | vStr s => exact absurd h (by simp)
      | vList l => exact absurd h (by simp)

/-- C6: `run_pre` folds the argument map through the pre-hooks in
registration order (composition over list append); it short-circuits with
the first violation; a pre-hook returning anything other than a dict is
itself a violation; and a pre-step guard violation fails the whole run (not
just the step) with `guardPre` carrying the step id and the cause. -/
theorem C6_run_pre_fold_and_abort :
    (∀ (gs1 gs2 : List Guard) (sid act : String) (args args1 : Args),
      run_pre gs1 sid act args = .ok args1 →
      run_pre (gs1 ++ gs2) sid act args = run_pre gs2 sid act args1) ∧
    (∀ (gs1 gs2 : List Guard) (g : Guard) (sid act : String)
       (args args1 : Args) (err : String),
      run_pre gs1 sid act args = .ok args1 →
      g.pre_step sid act args1 = .error err →
      run_pre (gs1 ++ g :: gs2) sid act args = .error err) ∧
    (∀ (gs1 gs2 : List Guard) (g : Guard) (sid act : String)
       (args args1 : Args) (v : Value),
      run_pre gs1 sid act args = .ok args1 →
      g.pre_step sid act args1 = .ok v → (∀ d, v ≠ .vDict d) →
      run_pre (gs1 ++ g :: gs2) sid act args =
        .error "pre_step must return a dict of args") ∧
    (∀ (sid act : String) (args : Args) (registry : List (String × TimedAction))
       (guards : List Guard) (action : TimedAction) (err : String),
      dget act registry = some action →
      run_pre guards sid act (resolveArgs [] args) = .error err →
      run_dagflow (one_step_flow sid act args) registry guards =
        .error (.guardPre sid err)) := by
  refine ⟨run_pre_append, ?_, ?_, ?_⟩
  · intro gs1 gs2 g sid act args args1 err h hg
    rw [run_pre_append gs1 (g :: gs2) sid act args args1 h, run_pre, hg]
  · intro gs1 gs2 g sid act args args1 v h hg hv
    rw [run_pre_append gs1 (g :: gs2) sid act args args1 h, run_pre, hg]
    cases v with
    | vDict d => exact absurd rfl (hv d)
    | vNone => rfl
    | vInt n => rfl
    | vFloat q => rfl
    | vStr s => rfl
    | vList l => rfl
  · intro sid act args registry guards action err hreg hpre
    unfold run_dagflow runCore
    have hbg : buildGraph (one_step_flow sid act args) =
        .ok ⟨[(sid, ⟨sid, act, args⟩)], [(sid, 0)], [(sid, [])]⟩ := rfl
    rw [hbg]
    simp only
    have hready : readyList ⟨[(sid, ⟨sid, act, args⟩)], [(sid, 0)], [(sid, [])]⟩ =
        [sid] := rfl
    rw [hready]
    have hsub : submitAll ⟨[(sid, ⟨sid, act, args⟩)], [(sid, 0)], [(sid, [])]⟩
        registry guards [] 0 [sid] = .error (.guardPre sid err) := by
      rw [submitAll]
      have hstep : submit_step ⟨[(sid, ⟨sid, act, args⟩)], [(sid, 0)], [(sid, [])]⟩
          registry guards [] 0 sid = .error (.guardPre sid err) := by
        unfold submit_step
        have hd : dget sid [(sid, (⟨sid, act, args⟩ : Step))] =
            some ⟨sid, act, args⟩ := by
          rw [dget, if_pos rfl]
        rw [hd]
        simp only
        rw [hreg]
        simp only
        rw [hpre]
      rw [hstep]
    rw [hsub]

/-- Witness for C6 on concrete guards: the failing guard aborts with its
message after an identity guard ran first; a non-dict-returning guard is a
violation; and the single-step run fails as a whole with `guardPre`. -/
theorem C6_witness :
    run_pre [ex_guard_id, ex_guard_fail] "s" "act" [("a", .vInt 1)] =
      .error "nope" ∧
    run_pre [ex_guard_id, ex_guard_nondict] "s" "act" [("a", .vInt 1)] =
      .error "pre_step must return a dict of args" ∧
    run_dagflow (one_step_flow "s" "add" []) ex_registry [ex_guard_fail] =
      .error (.guardPre "s" "nope") := by
  refine ⟨?_, ?_, ?_⟩
  · exact C6_run_pre_fold_and_abort.2.1 [ex_guard_id] [] ex_guard_fail
      "s" "act" [("a", .vInt 1)] [("a", .vInt 1)] "nope" (by rfl) (by rfl)
  · exact C6_run_pre_fold_and_abort.2.2.1 [ex_guard_id] [] ex_guard_nondict
      "s" "act" [("a", .vInt 1)] [("a", .vInt 1)] (.vInt 3) (by rfl) (by rfl)
      (fun d h => by cases h)
  · exact C6_run_pre_fold_and_abort.2.2.2 "s" "add" [] ex_registry
      [ex_guard_fail]
      ⟨1, fun _ args =>
        match dget "a" args, dget "b" args with
        | some (.vInt a), some (.vInt b) => .ok (.vInt (a + b))
        | _, _ => .error "type error"⟩ "nope" (by rfl) (by rfl)

theorem dget_none_not_mem {k : String} {l : List (String × α)}
    (h : dget k l = none) : k ∉ dkeys l := by
  intro hm
  have := dget_isSome_of_mem hm
  rw [h] at this
  simp at this

theorem extractTimeout_snd_props (args : Args) (hnd : (dkeys args).Nodup) :
    "__timeout__" ∉ dkeys (extractTimeout args).2 ∧
    (dkeys (extractTimeout args).2).Nodup ∧
    List.Sublist (extractTimeout args).2 args ∧
    ∀ p ∈ args, p.1 ≠ "__timeout__" → p ∈ (extractTimeout args).2 := by
  unfold extractTimeout
  cases h : dget "__timeout__" args with
  | none =>
    exact ⟨dget_none_not_mem h, hnd, List.Sublist.refl _, fun p hp _ => hp⟩
  | some raw =>
    exact ⟨not_mem_dkeys_derase hnd, nodup_dkeys_derase hnd, derase_sublist _ _,
      fun p hp hne => mem_derase_of_ne hne hp⟩

theorem extractRetry_snd_props (args : Args) (hnd : (dkeys args).Nodup) :
    "__retry__" ∉ dkeys (extractRetry args).2 ∧
    (dkeys (extractRetry args).2).Nodup ∧
    List.Sublist (extractRetry args).2 args ∧
    ∀ p ∈ args, p.1 ≠ "__retry__" → p ∈ (extractRetry args).2 := by
  unfold extractRetry
  cases h : dget "__retry__" args with
  | none =>
    exact ⟨dget_none_not_mem h, hnd, List.Sublist.refl _, fun p hp _ => hp⟩
  | some raw =>
    exact ⟨not_mem_dkeys_derase hnd, nodup_dkeys_derase hnd, derase_sublist _ _,
      fun p hp hne => mem_derase_of_ne hne hp⟩

/-- C7: in `submit_step`, after guard transformation, the reserved
`__timeout__` and `__retry__` keys are popped before the action is invoked:
the argument map handed to the worker (`fut.args`, the exact map
`_run_with_retries` passes to the action on every attempt) never contains a
reserved key, every non-reserved entry of the guard-transformed map reaches
the action unchanged and in order, and the worker's outcome is the retry
loop applied to exactly that stripped map. -/
theorem C7_reserved_keys_stripped
    (g : Graph) (registry : List (String × TimedAction)) (guards : List Guard)
    (results : List (String × Value)) (now : PyFloat) (nid : String)
    (step : Step) (act : TimedAction) (gargs : Args) (fut : Fut)
    (hn : dget nid g.nodes = some step)
    (ha : dget step.action registry = some act)
    (hpre : run_pre guards step.id step.action (resolveArgs results step.args) =
      .ok gargs)
    (hnd : (dkeys gargs).Nodup)
    (hsub : submit_step g registry guards results now nid = .ok fut) :
    fut.args = (extractRetry (extractTimeout gargs).2).2 ∧
    "__timeout__" ∉ dkeys fut.args ∧
    "__retry__" ∉ dkeys fut.args ∧
    (∀ p ∈ gargs, p.1 ≠ "__timeout__" → p.1 ≠ "__retry__" → p ∈ fut.args) ∧
    List.Sublist fut.args gargs ∧
    fut.outcome = (run_with_retries (fun i => act.run i fut.args)
      ((extractRetry (extractTimeout gargs).2).1.getD default_retry)).result := by
  unfold submit_step at hsub
  rw [hn] at hsub
  simp only at hsub
  rw [ha] at hsub
  simp only at hsub
  rw [hpre] at hsub
  simp only at hsub
  cases hET : extractTimeout gargs with
  | mk tout args1 =>
    rw [hET] at hsub
    simp only at hsub
    cases hER : extractRetry args1 with
    | mk rp args2 =>
      rw [hER] at hsub
      simp only at hsub
      injection hsub with hsub
      subst hsub
      have hsnd1 : (extractTimeout gargs).2 = args1 := by rw [hET]
      have hsnd2 : (extractRetry args1).2 = args2 := by rw [hER]
      have hfst2 : (extractRetry args1).1 = rp := by rw [hER]
      obtain ⟨hto1, hnd1, hsl1, hmem1⟩ := extractTimeout_snd_props gargs hnd
      rw [hsnd1] at hto1 hnd1 hsl1 hmem1
      obtain ⟨hre2, hnd2, hsl2, hmem2⟩ := extractRetry_snd_props args1 hnd1
      rw [hsnd2] at hre2 hnd2 hsl2
      rw [hsnd2] at hmem2
      refine ⟨rfl, ?_, hre2, ?_, hsl2.trans hsl1, rfl⟩
      · intro hc
        exact hto1 ((hsl2.map Prod.fst).subset hc)
      · intro p hp hp1 hp2
        exact hmem2 p (hmem1 p hp hp1) hp2

/-- Witness for C7: a step carrying both reserved keys next to a plain
argument hands the action exactly the plain argument. -/
theorem C7_witness :
    "__timeout__" ∉ dkeys [("a", Value.vInt 1)] ∧
    "__retry__" ∉ dkeys [("a", Value.vInt 1)] ∧
    ("a", Value.vInt 1) ∈ ([("a", Value.vInt 1)] : Args) := by
  have h := C7_reserved_keys_stripped
    ⟨[("s", ⟨"s", "keys", ex_keys_args⟩)], [("s", 0)], [("s", [])]⟩
    ex_keys_registry [] [] 0 "s" ⟨"s", "keys", ex_keys_args⟩
    ⟨1, fun _ args => .ok (.vList (args.map (fun p => .vStr p.1)))⟩
    ex_keys_args
    ⟨"s", 0, ⟨1, 1⟩, some (.ofInt 100), [("a", .vInt 1)], .ok (.vList [.vStr "a"])⟩
    (by rfl) (by rfl) (by rfl) (by decide) (by rfl)
  refine ⟨h.2.1, h.2.2.1, ?_⟩
  exact h.2.2.2.1 ("a", .vInt 1) (List.mem_cons_self _ _) (by decide) (by decide)

theorem smAction_length {registry : List (String × SmAction)} {st : State}
    {current ev : String} {results results2 : List (String × Value)}
    (h : smAction registry st current ev results = .ok results2) :
    results2.length ≤ results.length + 1 := by
  unfold smAction at h
  cases hact : st.action with
  | none =>
    rw [hact] at h
    injection h with h
    subst h
    omega
  | some a =>
    rw [hact] at h
    simp only at h
    by_cases ha : a = ""
    · rw [if_pos ha] at h
      injection h with h
      subst h
      omega
    · rw [if_neg ha] at h
      cases hr : dget a registry with
      | none => rw [hr] at h; exact absurd h (by simp)
      | some f =>
        rw [hr] at h
        simp only at h
        cases hf : f ev current with
        | error m => rw [hf] at h; exact absurd h (by simp)
        | ok res =>
          rw [hf] at h
          simp only at h
          injection h with h
          subst h
          exact length_dinsert_le _ _ _

/-- C8: `add_state` makes the first added state the start state unless one
is already set; a run visits at most one state per consumed event (the
result map grows by at most one entry per event); and traversal stops as
soon as the current state has no transition for the current event — the
remaining events are ignored, the run returning what the visited
action-bearing states produced up to and including that state. -/
theorem C8_state_machine_semantics :
    (∀ (sm : StateMachine) (st : State) (sm2 : StateMachine),
      sm.add_state st = .ok sm2 →
      sm2.start_state = some (sm.start_state.getD st.id)) ∧
    (∀ (states_map : List (String × State))
       (registry : List (String × SmAction)) (events : List String)
       (cur : String) (results r : List (String × Value)),
      smRunFrom states_map registry cur events results = .ok r →
      r.length ≤ results.length + events.length) ∧
    (∀ (states_map : List (String × State))
       (registry : List (String × SmAction)) (cur ev : String)
       (rest : List String) (results : List (String × Value)) (st : State),
      dget cur states_map = some st →
      dget ev st.«on» = none →
      smRunFrom states_map registry cur (ev :: rest) results =
        smRunFrom states_map registry cur [ev] results) := by
  refine ⟨?_, ?_, ?_⟩
  · intro sm st sm2 h
    unfold StateMachine.add_state at h
    by_cases hd : sm.states.any (fun s => s.id = st.id) = true
    · rw [if_pos hd] at h
      exact absurd h (by simp)
    · rw [if_neg hd] at h
      injection h with h
      subst h
      cases hs : sm.start_state <;> simp [hs]
  · intro states_map registry events
    induction events with
    | nil =>
      intro cur results r h
      rw [smRunFrom] at h
      injection h with h
      subst h
      omega
    | cons ev rest ih =>
      intro cur results r h
      rw [smRunFrom] at h
      cases hst : dget cur states_map with
      | none => rw [hst] at h; exact absurd h (by simp)
      | some st =>
        rw [hst] at h
        simp only at h
        cases hA : smAction registry st cur ev results with
        | error e => rw [hA] at h; exact absurd h (by simp)
        | ok results2 =>
          rw [hA] at h
          simp only at h
          have hlen2 := smAction_length hA
          cases htr : dget ev st.«on» with
          | none =>
            rw [htr] at h
            injection h with h
            subst h
            simp only [List.length_cons]
            omega
          | some nxt =>
            rw [htr] at h
            have := ih nxt results2 r h
            simp only [List.length_cons]
            omega
  · intro states_map registry cur ev rest results st hst hev
    rw [smRunFrom, smRunFrom, hst]
    simp only
    cases hA : smAction registry st cur ev results with
    | error e => rfl
    | ok results2 => simp only [hev]

/-- Witness for C8: adding a first state to an empty machine sets the start
state; the example run over four events records two entries; and a missing
transition makes the longer event sequence agree with its one-event
prefix. -/
theorem C8_witness :
    (StateMachine.start_state ⟨"m", [⟨"A", none, []⟩], some "A", "0.1.0"⟩ =
      some ((none : Option String).getD "A")) ∧
    ([("A", Value.vStr "A/stop"), ("B", Value.vStr "B/go")].length ≤
      ([] : List (String × Value)).length +
        (["go", "go", "stop", "go"] : List String).length) ∧
    (smRunFrom (buildStates ex_sm.states []) ex_sm_registry "A"
        ["stop", "go"] [] =
      smRunFrom (buildStates ex_sm.states []) ex_sm_registry "A" ["stop"] []) := by
  refine ⟨?_, ?_, ?_⟩
  · exact C8_state_machine_semantics.1 ⟨"m", [], none, "0.1.0"⟩ ⟨"A", none, []⟩
      ⟨"m", [⟨"A", none, []⟩], some "A", "0.1.0"⟩ (by rfl)
  · exact C8_state_machine_semantics.2.1 (buildStates ex_sm.states [])
      ex_sm_registry ["go", "go", "stop", "go"] "A" []
      [("A", .vStr "A/stop"), ("B", .vStr "B/go")] (by rfl)
  · exact C8_state_machine_semantics.2.2 (buildStates ex_sm.states [])
      ex_sm_registry "A" "stop" ["go"] [] ⟨"A", some "act", [("go", "B")]⟩
      (by rfl) (by rfl)

theorem procLoop_brokenPool (g : Graph) (registry : List (String × ProcAction))
    (fuel : Nat) (nid msg : String) (rest : List (String × TaskOut))
    (incoming : List (String × Int)) (results : List (String × Value)) :
    procLoop g registry (fuel + 1) ((nid, .brokenPool msg) :: rest)
      incoming results = .error (.poolBroken nid msg) := by
  rw [procLoop]
  rfl

/-- C9: in the process-isolated executor, a future that fails because the
worker pool broke (`BrokenProcessPool`) surfaces as the dedicated
`poolBroken` error — an error distinct from the generic per-step
`stepFailedInProcess` failure — and a run hitting it fails with exactly that
error. -/
theorem C9_pool_broken_distinguishable :
    (∀ nid m : String,
      procHandleResult nid (.brokenPool m) = .error (.poolBroken nid m)) ∧
    (∀ nid m sid m2 : String,
      FlowErr.poolBroken nid m ≠ FlowErr.stepFailedInProcess sid m2) ∧
    (∀ (sid act : String) (args : Args) (msg : String)
       (registry : List (String × ProcAction)) (pact : ProcAction),
      dget act registry = some pact →
      pact (resolveArgs [] args) = .brokenPool msg →
      proc_run_dagflow (one_step_flow sid act args) registry =
        .error (.poolBroken sid msg)) := by
  refine ⟨fun nid m => rfl, fun nid m sid m2 h => FlowErr.noConfusion h, ?_⟩
  intro sid act args msg registry pact hreg hact
  unfold proc_run_dagflow
  have hbg : buildGraph (one_step_flow sid act args) =
      .ok ⟨[(sid, ⟨sid, act, args⟩)], [(sid, 0)], [(sid, [])]⟩ := rfl
  rw [hbg]
  simp only
  have hready : readyList ⟨[(sid, ⟨sid, act, args⟩)], [(sid, 0)], [(sid, [])]⟩ =
      [sid] := rfl
  rw [hready]
  have hsubmit : procSubmitAll ⟨[(sid, ⟨sid, act, args⟩)], [(sid, 0)], [(sid, [])]⟩
      registry [] [sid] = .ok [(sid, pact (resolveArgs [] args))] := by
    rw [procSubmitAll]
    have hps : procSubmit ⟨[(sid, ⟨sid, act, args⟩)], [(sid, 0)], [(sid, [])]⟩
        registry [] sid = .ok (sid, pact (resolveArgs [] args)) := by
      unfold procSubmit
      rw [dget, if_pos rfl]
      simp only
      rw [hreg]
    rw [hps]
    simp only
    rw [procSubmitAll]
  rw [hsubmit]
  simp only
  rw [hact]
  rw [procLoop_brokenPool]

/-- Witness for C9: a single-step flow whose action reports a broken pool
fails with the pool error. -/
theorem C9_witness :
    proc_run_dagflow (one_step_flow "s" "boom" []) ex_proc_registry =
      .error (.poolBroken "s" "worker died") :=
  C9_pool_broken_distinguishable.2.2 "s" "boom" [] "worker died"
    ex_proc_registry (fun _ => .brokenPool "worker died") (by rfl) (by rfl)

/-- C10 (implicit): `DAGFlow.from_dict` performs none of the builder's
validation — it accepts a payload with a duplicate step id and an edge to an
absent step — while `add_step` rejects duplicate ids and `add_edge` rejects
unknown endpoints, so only builder-constructed flows are guaranteed to
satisfy the data-model invariants. -/
theorem C10_from_dict_bypasses_invariants :
    (∃ flow, DAGFlow.from_dict ex_bad_dict = some flow ∧
      flow.steps.map Step.id = ["a", "a"] ∧
      ¬ (flow.steps.map Step.id).Nodup ∧
      flow.edges = [("a", "zzz")] ∧
      ¬ flow.steps.any (fun s => s.id = "zzz") = true) ∧
    (∀ (flow : DAGFlow) (step : Step),
      flow.steps.any (fun s => s.id = step.id) = true →
      flow.add_step step = .error (.duplicateStep step.id)) ∧
    (∀ (flow : DAGFlow) (f t : String),
      ¬ flow.steps.any (fun s => s.id = f) = true →
      flow.add_edge f t = .error (.unknownStep f)) ∧
    (∀ (flow : DAGFlow) (f t : String),
      flow.steps.any (fun s => s.id = f) = true →
      ¬ flow.steps.any (fun s => s.id = t) = true →
      flow.add_edge f t = .error (.unknownStep t)) := by
  refine ⟨⟨⟨"bad", [⟨"a", "noop", []⟩, ⟨"a", "noop", []⟩], [("a", "zzz")], "0.1.0"⟩,
    rfl, rfl, by decide, rfl, by decide⟩, ?_, ?_, ?_⟩
  · intro flow step h
    unfold DAGFlow.add_step
    rw [if_pos h]
  · intro flow f t h
    unfold DAGFlow.add_edge
    rw [if_pos h]
  · intro flow f t hf ht
    unfold DAGFlow.add_edge
    rw [if_neg (by simpa using hf), if_pos ht]

/-- Witness for C10 on concrete flows: duplicate-id insertion and edges with
absent endpoints are rejected by the builder operations. -/
theorem C10_witness :
    DAGFlow.add_step ⟨"w", [⟨"x", "noop", []⟩], [], "0.1.0"⟩ ⟨"x", "noop", []⟩ =
      .error (.duplicateStep "x") ∧
    DAGFlow.add_edge ⟨"w", [⟨"x", "noop", []⟩], [], "0.1.0"⟩ "q" "x" =
      .error (.unknownStep "q") ∧
    DAGFlow.add_edge ⟨"w", [⟨"x", "noop", []⟩], [], "0.1.0"⟩ "x" "q" =
      .error (.unknownStep "q") :=
  ⟨C10_from_dict_bypasses_invariants.2.1 _ _ (by decide),
   C10_from_dict_bypasses_invariants.2.2.1 _ "q" "x" (by decide),
   C10_from_dict_bypasses_invariants.2.2.2 _ "x" "q" (by decide) (by decide)⟩

end Koala
